import Mathlib

/-!
Verification of the layout / monetary core of the NuForm invoicer
(`src/app.py`) against its specification.  The Python source is embedded
shallowly: exact decimals become `ℚ`, FPDF string measurement becomes an
explicit character-width sum, and the stateful auto-fit loop becomes an
explicit step function on a state record with an explicit fuel bound.
-/

set_option maxRecDepth 4000

namespace NuForm

/-! ### Text measurement (FPDF `get_string_width` for core Helvetica)

`pdf.get_string_width(s)` returns `(Σ cw[ch]) / 1000 * font_size` where
`font_size` is the point size divided by the mm scale factor `k = 72/25.4`;
hence the width in mm is `(Σ cw[ch]) * sizePt * 127 / 360000`.  The
per-mille character widths below are the FPDF core Helvetica metrics for
printable ASCII; characters outside the table are mapped to 556 (they are
not used by any call site modelled here). -/

def helveticaCW (c : Char) : ℕ :=
  match c with
  | ' ' => 278 | '!' => 278 | '"' => 355 | '#' => 556 | '$' => 556
  | '%' => 889 | '&' => 667 | '\'' => 191 | '(' => 333 | ')' => 333
  | '*' => 389 | '+' => 584 | ',' => 278 | '-' => 333 | '.' => 278
  | '/' => 278
  | '0' => 556 | '1' => 556 | '2' => 556 | '3' => 556 | '4' => 556
  | '5' => 556 | '6' => 556 | '7' => 556 | '8' => 556 | '9' => 556
  | ':' => 278 | ';' => 278 | '<' => 584 | '=' => 584 | '>' => 584
  | '?' => 556 | '@' => 1015
  | 'A' => 667 | 'B' => 667 | 'C' => 722 | 'D' => 722 | 'E' => 667
  | 'F' => 611 | 'G' => 778 | 'H' => 722 | 'I' => 278 | 'J' => 500
  | 'K' => 667 | 'L' => 556 | 'M' => 833 | 'N' => 722 | 'O' => 778
  | 'P' => 667 | 'Q' => 778 | 'R' => 722 | 'S' => 667 | 'T' => 611
  | 'U' => 722 | 'V' => 667 | 'W' => 944 | 'X' => 667 | 'Y' => 667
  | 'Z' => 611
  | '[' => 278 | '\\' => 278 | ']' => 278 | '^' => 469 | '_' => 556
  | '`' => 333
  | 'a' => 556 | 'b' => 556 | 'c' => 500 | 'd' => 556 | 'e' => 556
  | 'f' => 278 | 'g' => 556 | 'h' => 556 | 'i' => 222 | 'j' => 222
  | 'k' => 500 | 'l' => 222 | 'm' => 833 | 'n' => 556 | 'o' => 556
  | 'p' => 556 | 'q' => 556 | 'r' => 333 | 's' => 500 | 't' => 278
  | 'u' => 556 | 'v' => 500 | 'w' => 722 | 'x' => 500 | 'y' => 500
  | 'z' => 500 | '{' => 334 | '|' => 260 | '}' => 334 | '~' => 584
  | _ => 556

/-- Sum of Helvetica per-mille widths of a character list. -/
def cwSum (s : List Char) : ℕ := (s.map helveticaCW).sum

/-- `pdf.get_string_width` in mm at point size `fontSize`
(`unit='mm'`, so the scale factor is `k = 72/25.4`). -/
def getStringWidth (fontSize : ℚ) (s : List Char) : ℚ :=
  (cwSum s : ℚ) * fontSize * 127 / 360000

/-! ### Exact decimal arithmetic (`decimal.Decimal`) -/

/-- `ROUND_HALF_UP` to an integer: ties round away from zero, as in
Python's `decimal` module. -/
def roundHalfUp (x : ℚ) : ℤ :=
  if 0 ≤ x then ⌊x + 1 / 2⌋ else -⌊-x + 1 / 2⌋

/-- `x.quantize(Decimal('0.01'), rounding=ROUND_HALF_UP)`. -/
def quantize2 (x : ℚ) : ℚ := (roundHalfUp (x * 100) : ℚ) / 100

/-- Tax decomposition as computed in `InvoiceApp.recalc_totals`
(src/app.py:858-863) and `InvoiceApp.generate_pdf` (src/app.py:1196-1197 and
1267-1272): when the rate is zero, `(gross, 0)` with no division; otherwise
`ex = quantize2 (gross / (1 + rate))` and `vat = quantize2 (gross - ex)`. -/
def computeTax (gross rate : ℚ) : ℚ × ℚ :=
  if rate = 0 then (gross, 0)
  else
    (quantize2 (gross / (1 + rate)),
     quantize2 (gross - quantize2 (gross / (1 + rate))))

/-! ### Money parsing (`money_to_decimal`, src/app.py:170-176) and the
line-total update (`InvoiceApp.update_total`, src/app.py:831-845).

Python's `Decimal` constructor also accepts the special forms `NaN`,
`sNaN` and `Infinity`, so the value domain is modelled as `PyDec`.
Operations that raise `InvalidOperation` (which `update_total` and the
gross accumulation catch) are modelled as `none`. -/

inductive PyDec where
  | num (q : ℚ)
  | nan
  | snan
  | inf (neg : Bool)
  deriving DecidableEq

/-- Digit run to a natural number. -/
def digitsToNat (ds : List Char) : ℕ :=
  ds.foldl (fun a c => 10 * a + (c.toNat - '0'.toNat)) 0

/-- Numeric part of the `Decimal` string grammar (already sign-stripped and
lower-cased): `digits [. digits]` or `. digits`, with an optional
`e`-exponent carrying its own optional sign and mandatory digits. -/
def parseNumericBody (ls : List Char) (neg : Bool) : Option PyDec :=
  let ip := ls.takeWhile Char.isDigit
  let rest := ls.drop ip.length
  let withMantissa : List Char → ℕ → ℕ → Option PyDec := fun expPart mant fracLen =>
    let finish : Bool → List Char → Option PyDec := fun eneg ds =>
      if ds = [] ∨ ¬ ds.all Char.isDigit then none
      else
        let e : ℤ := if eneg then -(digitsToNat ds : ℤ) else (digitsToNat ds : ℤ)
        let q : ℚ := (mant : ℚ) / (10 : ℚ) ^ fracLen * (10 : ℚ) ^ e
        some (PyDec.num (if neg then -q else q))
    match expPart with
    | [] => some (PyDec.num (if neg then -((mant : ℚ) / (10 : ℚ) ^ fracLen)
                             else (mant : ℚ) / (10 : ℚ) ^ fracLen))
    | 'e' :: '+' :: ds => finish false ds
    | 'e' :: '-' :: ds => finish true ds
    | 'e' :: ds => finish false ds
    | _ => none
  match rest with
  | '.' :: r2 =>
    let fp := r2.takeWhile Char.isDigit
    if ip = [] ∧ fp = [] then none
    else withMantissa (r2.drop fp.length)
      (digitsToNat ip * 10 ^ fp.length + digitsToNat fp) fp.length
  | _ =>
    if ip = [] then none
    else withMantissa rest (digitsToNat ip) 0

/-- Special forms of the `Decimal` string grammar (lower-cased input):
`nan` with an optional digit payload, `snan` likewise, `inf`/`infinity`. -/
def parseSpecialBody (ls : List Char) (neg : Bool) : Option PyDec :=
  if ls.take 4 = ['s', 'n', 'a', 'n'] ∧ (ls.drop 4).all Char.isDigit then
    some PyDec.snan
  else if ls.take 3 = ['n', 'a', 'n'] ∧ (ls.drop 3).all Char.isDigit then
    some PyDec.nan
  else if ls = ['i', 'n', 'f'] ∨ ls = ['i', 'n', 'f', 'i', 'n', 'i', 't', 'y'] then
    some (PyDec.inf neg)
  else none

/-- Strip leading and trailing whitespace (Python `str.strip`, and the
whitespace tolerance of the `Decimal` constructor). -/
def trimWs (s : List Char) : List Char :=
  ((s.dropWhile Char.isWhitespace).reverse.dropWhile Char.isWhitespace).reverse

/-- `Decimal(text)`: `none` models the constructor raising
`InvalidOperation`. -/
def parsePyDecimal (s : List Char) : Option PyDec :=
  let cs := trimWs s
  match cs with
  | [] => none
  | '+' :: r => (parseSpecialBody (r.map Char.toLower) false).orElse
      (fun _ => parseNumericBody (r.map Char.toLower) false)
  | '-' :: r => (parseSpecialBody (r.map Char.toLower) true).orElse
      (fun _ => parseNumericBody (r.map Char.toLower) true)
  | r => (parseSpecialBody (r.map Char.toLower) false).orElse
      (fun _ => parseNumericBody (r.map Char.toLower) false)

/-- `money_to_decimal` (src/app.py:170-176): strip, drop every `R` and `,`,
fail on empty remainder, else `Decimal(clean)`. -/
def moneyToDecimal (s : String) : Option PyDec :=
  let clean := (trimWs s.data).filter (fun c => c ≠ 'R' ∧ c ≠ ',')
  if clean = [] then none else parsePyDecimal clean

/-- `Decimal` multiplication with the special values: `sNaN` raises
`InvalidOperation` (`none`), a quiet `NaN` propagates, `inf * 0` raises. -/
def pyMul : PyDec → PyDec → Option PyDec
  | PyDec.snan, _ => none
  | _, PyDec.snan => none
  | PyDec.nan, _ => some PyDec.nan
  | _, PyDec.nan => some PyDec.nan
  | PyDec.inf s, PyDec.inf t => some (PyDec.inf (Bool.xor s t))
  | PyDec.inf s, PyDec.num q =>
    if q = 0 then none else some (PyDec.inf (Bool.xor s (decide (q < 0))))
  | PyDec.num q, PyDec.inf t =>
    if q = 0 then none else some (PyDec.inf (Bool.xor (decide (q < 0)) t))
  | PyDec.num a, PyDec.num b => some (PyDec.num (a * b))

/-- `Decimal` addition with the special values: `sNaN` raises, quiet `NaN`
propagates, `inf + (-inf)` raises. -/
def pyAdd : PyDec → PyDec → Option PyDec
  | PyDec.snan, _ => none
  | _, PyDec.snan => none
  | PyDec.nan, _ => some PyDec.nan
  | _, PyDec.nan => some PyDec.nan
  | PyDec.inf s, PyDec.inf t => if s = t then some (PyDec.inf s) else none
  | PyDec.inf s, PyDec.num _ => some (PyDec.inf s)
  | PyDec.num _, PyDec.inf t => some (PyDec.inf t)
  | PyDec.num a, PyDec.num b => some (PyDec.num (a + b))

/-- `x.quantize(Decimal('0.01'), ROUND_HALF_UP)` on the full value domain:
a quiet `NaN` propagates and quantizing an infinity raises.  For a finite
value the result coefficient is `|roundHalfUp (q * 100)|`; `quantize`
signals `InvalidOperation` (`none`) when that coefficient would be longer
than the context precision — 28 digits in Python's default context — i.e.
when it reaches `10^28`. -/
def pyQuantize2 : PyDec → Option PyDec
  | PyDec.num q =>
    if 10 ^ 28 ≤ (roundHalfUp (q * 100)).natAbs then none
    else some (PyDec.num (quantize2 q))
  | PyDec.nan => some PyDec.nan
  | PyDec.snan => none
  | PyDec.inf _ => none

/-- `InvoiceApp.update_total` (src/app.py:831-842): parse quantity and
price, multiply, quantize half-up to two places; any `InvalidOperation`
along the way is caught and the stored total becomes `0.00`. -/
def updateTotalModel (qtyText priceText : String) : PyDec :=
  let r : Option PyDec := do
    let q ← moneyToDecimal qtyText
    let p ← moneyToDecimal priceText
    let t ← pyMul q p
    pyQuantize2 t
  match r with
  | some v => v
  | none => PyDec.num 0

/-- Gross accumulation over the stored per-row total texts, as in
`InvoiceApp.generate_pdf` (src/app.py:1188-1194): start from `0.00` and add
each parsed total, skipping a row whenever parsing or addition raises
`InvalidOperation`. -/
def grossOfTotals (totals : List String) : PyDec :=
  totals.foldl
    (fun g t =>
      match (moneyToDecimal t).bind (fun v => pyAdd g v) with
      | some g' => g'
      | none => g)
    (PyDec.num 0)

/-! ### Column-width allocation (`ensure_min_col_width`, src/app.py:1006-1023) -/

/-- Python's built-in `max` over a nonempty list (left-to-right fold;
the `[]` case is unreachable at every call site, as in the source). -/
def listMax : List ℚ → ℚ
  | [] => 0
  | [x] => x
  | x :: y :: xs => max x (listMax (y :: xs))

/-- The required width of a protected column: the widest sample text at the
current font plus the fixed padding (`pad_mm`, 3.0 at every call site). -/
def neededWidth (sampleTexts : List String) (fontSize padMm : ℚ) : ℚ :=
  listMax (sampleTexts.map (fun t => getStringWidth fontSize t.data)) + padMm

/-- The donor loop of `ensure_min_col_width` (src/app.py:1013-1021): walk
the donors in priority order; each donor with spare width above the
`min_keep_mm` floor gives up `min spare deficit`; stop once the deficit is
covered. -/
def donateWidths (minKeepMm : ℚ) : List ℕ → List ℚ → ℚ → List ℚ
  | [], ws, _ => ws
  | d :: ds, ws, deficit =>
    let spare := max (ws.getD d 0 - minKeepMm) 0
    if spare ≤ 0 then donateWidths minKeepMm ds ws deficit
    else
      let tk := min spare deficit
      let ws' := ws.set d (ws.getD d 0 - tk)
      if deficit - tk ≤ 0 then ws'
      else donateWidths minKeepMm ds ws' (deficit - tk)

/-- `ensure_min_col_width` (src/app.py:1006-1023): if the target column
already has the needed width, return the widths unchanged; otherwise take
the deficit from the donors and finally raise the target to
`max (current, need)`. -/
def ensureMinColWidth (ws : List ℚ) (targetIdx : ℕ) (sampleTexts : List String)
    (donors : List ℕ) (minKeepMm fontSize padMm : ℚ) : List ℚ :=
  let need := neededWidth sampleTexts fontSize padMm
  if need ≤ ws.getD targetIdx 0 then ws
  else
    let ws' := donateWidths minKeepMm donors ws (need - ws.getD targetIdx 0)
    ws'.set targetIdx (max (ws'.getD targetIdx 0) need)

/-- The pair of protection calls made for the portrait table — NAPPI column
(index 5) first, then unit price (index 7), donors `[2, 3, 1, 4]` with a
14 mm floor — at the initial allocation (src/app.py:1105-1106), after a
margin shrink (src/app.py:1137-1138) and at the bottom of every shrink-loop
iteration (src/app.py:1142-1143). -/
def reEnsureCols (fontSize : ℚ) (ws : List ℚ) : List ℚ :=
  ensureMinColWidth
    (ensureMinColWidth ws 5 ["0000000000"] [2, 3, 1, 4] 14 fontSize 3)
    7 ["R0000000.00", "0000000.00"] [2, 3, 1, 4] 14 fontSize 3

/-! ### Word wrapping (`wrapped_height`, src/app.py:1035-1076) -/

/-- Python `str.split()`: split on whitespace runs, discarding empty
pieces.  `acc` holds the current word reversed. -/
def splitWsAux : List Char → List Char → List (List Char)
  | [], acc => if acc = [] then [] else [acc.reverse]
  | c :: cs, acc =>
    if c.isWhitespace then
      (if acc = [] then splitWsAux cs [] else acc.reverse :: splitWsAux cs [])
    else splitWsAux cs (c :: acc)

def splitWs (s : List Char) : List (List Char) := splitWsAux s []

/-- The character-packing loop of `wrapped_height` (both the
whitespace-only branch, src/app.py:1049-1058, and the long-word fallback,
src/app.py:1061-1068): append each character to the current line while it
still fits `max_w`, else start a new line holding just that character. -/
def charPack (fs maxw : ℚ) : ℕ × List Char → List Char → ℕ × List Char
  | st, [] => st
  | (lines, cur), c :: cs =>
    if getStringWidth fs (cur ++ [c]) ≤ maxw then
      charPack fs maxw (lines, cur ++ [c]) cs
    else charPack fs maxw (lines + 1, [c]) cs

/-- The word loop of `wrapped_height` (src/app.py:1060-1075): a word wider
than `max_w` is character-packed onto the current line (no separating
space); otherwise the word is appended after a space — the source computes
`(cur + " " + w).strip()`, and since `str.split()` yields whitespace-free
words and `cur` never carries outer whitespace, the strip only removes the
leading space when `cur` is empty, i.e. `t = w` in that case. -/
def wordPack (fs maxw : ℚ) : ℕ × List Char → List (List Char) → ℕ × List Char
  | st, [] => st
  | (lines, cur), w :: ws =>
    if maxw < getStringWidth fs w then
      wordPack fs maxw (charPack fs maxw (lines, cur) w) ws
    else
      let t := if cur = [] then w else cur ++ ' ' :: w
      if getStringWidth fs t ≤ maxw then wordPack fs maxw (lines, t) ws
      else wordPack fs maxw (lines + 1, w) ws

/-- `wrapped_height` (src/app.py:1035-1076): empty text gives one bare
line height; otherwise greedy word wrap into `max_w = max(0.1, col - 1.6)`
(falling back to character packing for oversized words, and packing the
raw characters when the text is whitespace-only so `split()` is empty),
returning `lines * line_hh + 0.8`. -/
def wrappedHeight (text : String) (colWidth lineHH fontSize : ℚ) : ℚ :=
  if text.data = [] then lineHH
  else
    let maxw := max (1 / 10) (colWidth - 8 / 5)
    match splitWs text.data with
    | [] => ((charPack fontSize maxw (1, []) text.data).1 : ℚ) * lineHH + 4 / 5
    | w :: ws => ((wordPack fontSize maxw (1, []) (w :: ws)).1 : ℚ) * lineHH + 4 / 5

/-! ### The portrait auto-fit shrink loop (src/app.py:1078-1143)

The loop mutates `table_font`, `row_h`, the margins and `col_w`; it is
embedded as a step function on an explicit state.  `free_height()` is
constant during the loop (nothing draws and `y` is restored after a margin
change), so it enters the model as the parameter `freeH`. -/

/-- Python's built-in `max` over a nonempty list with a default for the
empty one (`max(heights) if heights else base_h`). -/
def listMaxD (d : ℚ) : List ℚ → ℚ
  | [] => d
  | [x] => x
  | x :: y :: xs => max x (listMaxD d (y :: xs))

/-- The portrait column weights (src/app.py:1082). -/
def portraitWeights : List ℚ :=
  [11 / 10, 9 / 5, 17 / 5, 17 / 5, 4 / 5, 6 / 5, 4 / 5, 6 / 5, 13 / 10]

/-- `col_w = [avail_w * (w / total_w) for w in weights]` on an A4 portrait
page (210 mm wide), as computed initially (src/app.py:1083-1085) and after
a margin shrink (src/app.py:1135-1136). -/
def colsFromMargins (lM rM : ℚ) : List ℚ :=
  portraitWeights.map (fun w => (210 - lM - rM) * (w / portraitWeights.sum))

/-- The mutable state of the shrink loop. -/
structure FitState where
  font : ℚ
  rowH : ℚ
  lM : ℚ
  rM : ℚ
  colW : List ℚ

/-- Per-row cell heights (src/app.py:1110-1117): wrap columns 1, 2, 3 get
`wrapped_height(text, width, base_h, fsize) + 0.6`, all others the flat
row height. -/
def rowHeights (fsize baseH : ℚ) (widths : List ℚ) (r : List String) : List ℚ :=
  r.enum.map (fun p =>
    if p.1 = 1 ∨ p.1 = 2 ∨ p.1 = 3 then
      wrappedHeight p.2 (widths.getD p.1 0) baseH fsize + 3 / 5
    else baseH)

/-- `table_total_height` (src/app.py:1108-1118): header, the sum of
per-row maximum cell heights, and a header-sized slot again. -/
def tableTotalHeight (headerH fsize baseH : ℚ) (widths : List ℚ)
    (rows : List (List String)) : ℚ :=
  headerH + (rows.map (fun r => listMaxD baseH (rowHeights fsize baseH widths r))).sum +
    headerH

/-- One body of the shrink loop after the fit test has failed
(src/app.py:1123-1143): decrement the font by 0.2 if above its floor,
decrement the row height by 0.08 if above 3.2 (both `if`s run — they are
not chained with `elif`); if neither shrank, pull both margins in by 1 mm
down to the 6 mm floor and recompute the column widths, or exit
(`break`, modelled as `none`) when the margins are at their floor too.
Every continuing path re-runs the two width-protection calls at the
current font. -/
def shrinkStepCore (minFont : ℚ) (s : FitState) : Option FitState :=
  let f' := if minFont < s.font then s.font - 1 / 5 else s.font
  let r' := if (16 / 5 : ℚ) < s.rowH then s.rowH - 2 / 25 else s.rowH
  if minFont < s.font ∨ (16 / 5 : ℚ) < s.rowH then
    some { font := f', rowH := r', lM := s.lM, rM := s.rM,
           colW := reEnsureCols f' s.colW }
  else if 6 < s.lM ∨ 6 < s.rM then
    let lM' := max (s.lM - 1) 6
    let rM' := max (s.rM - 1) 6
    let cw := reEnsureCols s.font (colsFromMargins lM' rM')
    some { font := s.font, rowH := s.rowH, lM := lM', rM := rM',
           colW := reEnsureCols s.font cw }
  else none

/-- The shrink loop with explicit fuel: each fuel unit admits one
evaluation of the `while` condition; `none` means the fuel was exhausted
with the loop still running. -/
def shrinkLoop (headerH minFont freeH : ℚ) (rows : List (List String)) :
    ℕ → FitState → Option FitState
  | 0, _ => none
  | n + 1, s =>
    if tableTotalHeight headerH s.font s.rowH s.colW rows ≤ freeH then some s
    else
      match shrinkStepCore minFont s with
      | some s' => shrinkLoop headerH minFont freeH rows n s'
      | none => some s

/-- Number of 0.2 pt font decrements available above the floor. -/
def fuelFont (minFont font : ℚ) : ℕ := (⌈(font - minFont) * 5⌉).toNat

/-- Number of 0.08 mm row-height decrements available above the 3.2 floor. -/
def fuelRow (rowH : ℚ) : ℕ := (⌈(rowH - 16 / 5) * (25 / 2)⌉).toNat

/-- Number of 1 mm margin decrements available above the 6 mm floor. -/
def fuelMargin (m : ℚ) : ℕ := (⌈m - 6⌉).toNat

/-- Strictly decreasing measure of the shrink loop. -/
def fitFuel (minFont : ℚ) (s : FitState) : ℕ :=
  fuelFont minFont s.font + fuelRow s.rowH + fuelMargin s.lM + fuelMargin s.rM

end NuForm

namespace NuForm

/-! ### Basic lemmas -/

theorem cwSum_append (a b : List Char) : cwSum (a ++ b) = cwSum a + cwSum b := by
  simp [cwSum]

theorem getStringWidth_append (fs : ℚ) (a b : List Char) :
    getStringWidth fs (a ++ b) = getStringWidth fs a + getStringWidth fs b := by
  simp only [getStringWidth, cwSum_append]
  push_cast
  ring

/-- At the font size `360000/127 pt` the measured width in mm is exactly
the Helvetica per-mille sum, which keeps concrete evaluations exact. -/
theorem getStringWidth_special (s : List Char) :
    getStringWidth (360000 / 127) s = (cwSum s : ℚ) := by
  unfold getStringWidth
  field_simp

theorem getStringWidth_nonneg (fs : ℚ) (s : List Char) (hfs : 0 ≤ fs) :
    0 ≤ getStringWidth fs s := by
  have h1 : (0 : ℚ) ≤ (cwSum s : ℚ) := by positivity
  have h2 : (0 : ℚ) ≤ (cwSum s : ℚ) * fs * 127 := by
    have := mul_nonneg h1 hfs
    nlinarith
  exact div_nonneg h2 (by norm_num)

theorem roundHalfUp_intCast (k : ℤ) : roundHalfUp (k : ℚ) = k := by
  unfold roundHalfUp
  rcases le_or_lt 0 (k : ℚ) with h | h
  · rw [if_pos h, show ((k : ℚ) + 1 / 2) = (1 / 2 : ℚ) + (k : ℤ) by ring,
      Int.floor_add_int]
    norm_num
  · rw [if_neg (not_le.mpr h),
      show (-(k : ℚ) + 1 / 2) = (1 / 2 : ℚ) + (-k : ℤ) by push_cast; ring,
      Int.floor_add_int]
    norm_num

/-- `quantize2` is the identity on exact multiples of `1/100`. -/
theorem quantize2_cents (k : ℤ) : quantize2 ((k : ℚ) / 100) = (k : ℚ) / 100 := by
  unfold quantize2
  rw [show ((k : ℚ) / 100 * 100) = (k : ℚ) by field_simp, roundHalfUp_intCast]

/-- `quantize2` always returns an exact multiple of `1/100`. -/
theorem quantize2_is_cents (x : ℚ) : ∃ m : ℤ, quantize2 x = (m : ℚ) / 100 :=
  ⟨roundHalfUp (x * 100), rfl⟩

/-! ### Claim C1 -/

/-- C1 counterexample: the claim quantifies over every exact-decimal gross,
but for `gross = 0.005` and `rate = 0.15` the code returns
`(exclusive, tax) = (0.00, 0.01)`, and `0.00 + 0.01 ≠ 0.005`; likewise
`tax ≠ gross - exclusive` there because the code also quantizes the
subtraction.  So `exclusive + tax == gross` fails as stated. -/
theorem computeTax_sum_counterexample :
    (computeTax (1 / 200) (3 / 20)).1 = 0 ∧
      (computeTax (1 / 200) (3 / 20)).2 = 1 / 100 ∧
      (computeTax (1 / 200) (3 / 20)).1 + (computeTax (1 / 200) (3 / 20)).2 ≠ 1 / 200 ∧
      (computeTax (1 / 200) (3 / 20)).2 ≠ 1 / 200 - (computeTax (1 / 200) (3 / 20)).1 := by
  norm_num [computeTax, quantize2, roundHalfUp]

/-- C1 (amended): for every gross amount that is a whole number of cents
(`gross = n/100`, which every gross the program forms is, being a sum of
quantized line totals) and every rate with `0 ≤ rate < 1`, the pair
returned by the code satisfies `exclusive + tax = gross` exactly and
`tax = gross - exclusive`; for `rate = 0` the result is `(gross, 0)` with
no division. -/
theorem computeTax_decomposition (g r : ℚ) (n : ℤ)
    (hg : g = (n : ℚ) / 100) (h0 : 0 ≤ r) (h1 : r < 1) :
    (computeTax g r).1 + (computeTax g r).2 = g ∧
      (computeTax g r).2 = g - (computeTax g r).1 ∧
      computeTax g 0 = (g, 0) := by
  have hzero : computeTax g 0 = (g, 0) := by simp [computeTax]
  by_cases hr : r = 0
  · subst hr
    refine ⟨?_, ?_, hzero⟩
    · simp [computeTax]
    · simp [computeTax]
  · have hx : computeTax g r =
        (quantize2 (g / (1 + r)), quantize2 (g - quantize2 (g / (1 + r)))) := by
      simp [computeTax, hr]
    obtain ⟨m, hm⟩ := quantize2_is_cents (g / (1 + r))
    have hdiff : g - quantize2 (g / (1 + r)) = ((n - m : ℤ) : ℚ) / 100 := by
      rw [hm, hg]
      push_cast
      ring
    have htax : quantize2 (g - quantize2 (g / (1 + r))) = g - quantize2 (g / (1 + r)) := by
      rw [hdiff, quantize2_cents, ← hdiff]
    refine ⟨?_, ?_, hzero⟩
    · rw [hx]
      simp only [htax]
      ring
    · rw [hx]
      simp only [htax]

/-- C1 witness: the spec's own scenario, `gross = 450.00`, `rate = 0.15`:
`exclusive = 391.30`, `tax = 58.70`, and they reconstruct 450 exactly. -/
theorem computeTax_decomposition_witness :
    (450 : ℚ) = ((45000 : ℤ) : ℚ) / 100 ∧
      (computeTax 450 (3 / 20)).1 + (computeTax 450 (3 / 20)).2 = 450 :=
  ⟨by norm_num, (computeTax_decomposition 450 (3 / 20) 45000 (by norm_num)
      (by norm_num) (by norm_num)).1⟩

/-! ### Claims C5 and C9 (line totals) -/

/-- C5: the claim (and the spec's failure semantics) says a quantity or
price text that is not a valid decimal number contributes exactly `0.00`
and no exception escapes.  The input `"NaN"` refutes the code: Python's
`Decimal("NaN")` does not raise, the quiet NaN survives
`(qty * price).quantize(...)`, so the stored line total becomes `NaN`
rather than `0.00`, and the gross accumulation in `generate_pdf` is
poisoned to `NaN` instead of receiving a zero contribution. -/
theorem nan_total_propagates :
    updateTotalModel "NaN" "1" = PyDec.nan ∧
      grossOfTotals ["NaN"] = PyDec.nan ∧
      PyDec.nan ≠ PyDec.num 0 := by
  refine ⟨rfl, rfl, ?_⟩
  intro h
  cases h

/-- C9 counterexample: quantity `"1e30"` and price `"1"` both parse as
decimals, but `(Decimal("1e30") * 1).quantize(Decimal('0.01'))` has a
33-digit coefficient, exceeding the default 28-digit context precision:
the `InvalidOperation` is caught by `update_total`'s handler and the
stored line total is `0.00` — not the half-up rounding of
quantity × unit price, which is `10^30`. -/
theorem update_total_overflow_counterexample :
    moneyToDecimal "1e30" = some (PyDec.num ((10 : ℚ) ^ (30 : ℕ))) ∧
      moneyToDecimal "1" = some (PyDec.num 1) ∧
      updateTotalModel "1e30" "1" = PyDec.num 0 ∧
      PyDec.num 0 ≠ PyDec.num (quantize2 ((10 : ℚ) ^ (30 : ℕ) * 1)) := by
  have hq : moneyToDecimal "1e30" = some (PyDec.num ((10 : ℚ) ^ (30 : ℕ))) := by
    show some (PyDec.num ((1 : ℚ) / 10 ^ (0 : ℕ) * (10 : ℚ) ^ ((30 : ℕ) : ℤ))) =
      some (PyDec.num ((10 : ℚ) ^ (30 : ℕ)))
    norm_num [zpow_natCast]
  have hp : moneyToDecimal "1" = some (PyDec.num 1) := by
    show some (PyDec.num ((1 : ℚ) / 10 ^ (0 : ℕ))) = some (PyDec.num 1)
    norm_num
  have hcond : (10 : ℕ) ^ 28 ≤
      (roundHalfUp ((10 : ℚ) ^ (30 : ℕ) * 1 * 100)).natAbs := by
    rw [show ((10 : ℚ) ^ (30 : ℕ) * 1 * 100) = (((10 : ℤ) ^ 32 : ℤ) : ℚ) by
        push_cast; norm_num,
      roundHalfUp_intCast, Int.natAbs_pow]
    norm_num
  have hquant : quantize2 ((10 : ℚ) ^ (30 : ℕ) * 1) = (10 : ℚ) ^ (30 : ℕ) := by
    rw [show ((10 : ℚ) ^ (30 : ℕ) * 1) = (((10 : ℤ) ^ 32 : ℤ) : ℚ) / 100 by
        push_cast; norm_num,
      quantize2_cents]
    push_cast
    norm_num
  have hr : (do
      let q ← moneyToDecimal "1e30"
      let p ← moneyToDecimal "1"
      let t ← pyMul q p
      pyQuantize2 t : Option PyDec) = none := by
    rw [hq, hp]
    show pyQuantize2 (PyDec.num ((10 : ℚ) ^ (30 : ℕ) * 1)) = none
    simp only [pyQuantize2]
    rw [if_pos hcond]
  refine ⟨hq, hp, ?_, ?_⟩
  · simp only [updateTotalModel]
    rw [hr]
  · intro h
    injection h with h'
    rw [hquant] at h'
    norm_num at h'

/-- C9 (amended): after an edit of quantity or price, `update_total`
stores exactly the half-up two-place rounding of quantity × unit price
whenever both texts parse as finite decimal numbers, the exact product is
representable within the default 28-digit context precision (so the
context-rounded multiplication is value-exact), and the coefficient of
the quantized result also fits within 28 digits (so `quantize` does not
signal `InvalidOperation`); the total entry is written by no other code
path. -/
theorem update_total_line_invariant (qs ps : String) (a b : ℚ)
    (hq : moneyToDecimal qs = some (PyDec.num a))
    (hp : moneyToDecimal ps = some (PyDec.num b))
    (_hexact : ∃ (m : ℤ) (e : ℤ), a * b = (m : ℚ) * (10 : ℚ) ^ e ∧
      m.natAbs < 10 ^ 28)
    (hfit : (roundHalfUp (a * b * 100)).natAbs < 10 ^ 28) :
    updateTotalModel qs ps = PyDec.num (quantize2 (a * b)) := by
  have hr : (do
      let q ← moneyToDecimal qs
      let p ← moneyToDecimal ps
      let t ← pyMul q p
      pyQuantize2 t : Option PyDec) = some (PyDec.num (quantize2 (a * b))) := by
    rw [hq, hp]
    show pyQuantize2 (PyDec.num (a * b)) = some (PyDec.num (quantize2 (a * b)))
    simp only [pyQuantize2]
    rw [if_neg (not_le.mpr hfit)]
  simp only [updateTotalModel]
  rw [hr]

/-- C9 witness: quantity `"2"`, price `"3"`. -/
theorem update_total_line_invariant_witness :
    moneyToDecimal "2" = some (PyDec.num 2) ∧
      (roundHalfUp ((2 : ℚ) * 3 * 100)).natAbs < 10 ^ 28 ∧
      updateTotalModel "2" "3" = PyDec.num (quantize2 (2 * 3)) := by
  have hq : moneyToDecimal "2" = some (PyDec.num 2) := by
    show some (PyDec.num ((2 : ℚ) / 10 ^ 0)) = some (PyDec.num 2)
    norm_num
  have hp : moneyToDecimal "3" = some (PyDec.num 3) := by
    show some (PyDec.num ((3 : ℚ) / 10 ^ 0)) = some (PyDec.num 3)
    norm_num
  have hexact : ∃ (m : ℤ) (e : ℤ), (2 : ℚ) * 3 = (m : ℚ) * (10 : ℚ) ^ e ∧
      m.natAbs < 10 ^ 28 := ⟨6, 0, by norm_num, by norm_num⟩
  have hfit : (roundHalfUp ((2 : ℚ) * 3 * 100)).natAbs < 10 ^ 28 := by
    rw [show ((2 : ℚ) * 3 * 100) = ((600 : ℤ) : ℚ) by norm_num, roundHalfUp_intCast]
    norm_num
  exact ⟨hq, hfit, update_total_line_invariant "2" "3" 2 3 hq hp hexact hfit⟩

/-! ### Lemmas about the column-width allocator -/

theorem list_set_oob {α : Type} : ∀ (l : List α) (n : ℕ) (v : α),
    l.length ≤ n → l.set n v = l
  | [], _, _, _ => rfl
  | _ :: _, 0, _, h => absurd h (by simp)
  | a :: l, n + 1, v, h => by
    simp only [List.set]
    rw [list_set_oob l n v (by simpa using h)]

theorem getD_set_self : ∀ (l : List ℚ) (i : ℕ) (v : ℚ),
    i < l.length → (l.set i v).getD i 0 = v
  | [], i, _, h => absurd h (by simp)
  | _ :: _, 0, _, _ => rfl
  | _ :: l, i + 1, v, h => by
    simp only [List.set, List.getD_cons_succ]
    exact getD_set_self l i v (by simpa using h)

theorem getD_set_ne : ∀ (l : List ℚ) (i j : ℕ) (v : ℚ),
    i ≠ j → (l.set i v).getD j 0 = l.getD j 0
  | [], _, _, _, _ => rfl
  | _ :: _, 0, 0, _, h => absurd rfl h
  | _ :: _, 0, _ + 1, _, _ => rfl
  | _ :: _, _ + 1, 0, _, _ => rfl
  | _ :: l, i + 1, j + 1, v, h => by
    simp only [List.set, List.getD_cons_succ]
    exact getD_set_ne l i j v (fun he => h (by rw [he]))

theorem donateWidths_length (mk : ℚ) : ∀ (ds : List ℕ) (ws : List ℚ) (df : ℚ),
    (donateWidths mk ds ws df).length = ws.length
  | [], _, _ => rfl
  | d :: ds, ws, df => by
    simp only [donateWidths]
    split
    · exact donateWidths_length mk ds ws df
    · split
      · exact List.length_set ws d _
      · rw [donateWidths_length mk ds _ _, List.length_set]

theorem donateWidths_getD_not_mem (mk : ℚ) : ∀ (ds : List ℕ) (ws : List ℚ) (df : ℚ)
    (i : ℕ), i ∉ ds → (donateWidths mk ds ws df).getD i 0 = ws.getD i 0
  | [], _, _, _, _ => rfl
  | d :: ds, ws, df, i, hi => by
    have hd : i ≠ d := fun h => hi (h ▸ List.mem_cons_self d ds)
    have hds : i ∉ ds := fun h => hi (List.mem_cons_of_mem d h)
    simp only [donateWidths]
    split
    · exact donateWidths_getD_not_mem mk ds ws df i hds
    · split
      · exact getD_set_ne ws d i _ (fun h => hd h.symm)
      · rw [donateWidths_getD_not_mem mk ds _ _ i hds,
          getD_set_ne ws d i _ (fun h => hd h.symm)]

theorem donateWidths_getD_le (mk : ℚ) : ∀ (ds : List ℕ) (ws : List ℚ) (df : ℚ),
    0 ≤ df → ∀ i : ℕ, (donateWidths mk ds ws df).getD i 0 ≤ ws.getD i 0
  | [], _, _, _, _ => le_refl _
  | d :: ds, ws, df, hdf, i => by
    simp only [donateWidths]
    split
    · exact donateWidths_getD_le mk ds ws df hdf i
    · rename_i hspare
      have hsp : 0 < max (ws.getD d 0 - mk) 0 := lt_of_not_le hspare
      have htk0 : 0 ≤ min (max (ws.getD d 0 - mk) 0) df := le_min (le_of_lt hsp) hdf
      have hsetle : ∀ j : ℕ,
          (ws.set d (ws.getD d 0 - min (max (ws.getD d 0 - mk) 0) df)).getD j 0 ≤
            ws.getD j 0 := by
        intro j
        by_cases hj : d = j
        · subst hj
          by_cases hlen : d < ws.length
          · rw [getD_set_self ws d _ hlen]
            linarith
          · rw [list_set_oob ws d _ (le_of_not_lt hlen)]
        · rw [getD_set_ne ws d j _ hj]
      split
      · exact hsetle i
      · rename_i hdef
        have hdf' : 0 ≤ df - min (max (ws.getD d 0 - mk) 0) df :=
          sub_nonneg.mpr (min_le_right _ _)
        exact le_trans (donateWidths_getD_le mk ds _ _ hdf' i) (hsetle i)

theorem donateWidths_getD_floor (mk : ℚ) : ∀ (ds : List ℕ) (ws : List ℚ) (df : ℚ)
    (d : ℕ), ws.getD d 0 ≤ mk → (donateWidths mk ds ws df).getD d 0 = ws.getD d 0
  | [], _, _, _, _ => rfl
  | e :: ds, ws, df, d, hd => by
    simp only [donateWidths]
    by_cases he : e = d
    · subst he
      have : max (ws.getD e 0 - mk) 0 ≤ 0 := by
        apply max_le _ (le_refl 0)
        linarith
      rw [if_pos this]
      exact donateWidths_getD_floor mk ds ws df e hd
    · split
      · exact donateWidths_getD_floor mk ds ws df d hd
      · have hne : (ws.set e (ws.getD e 0 - min (max (ws.getD e 0 - mk) 0) df)).getD d 0 =
            ws.getD d 0 := getD_set_ne ws e d _ he
        split
        · exact hne
        · rw [donateWidths_getD_floor mk ds _ _ d (by rw [hne]; exact hd), hne]

theorem ensureMinColWidth_length (ws : List ℚ) (t : ℕ) (s : List String)
    (ds : List ℕ) (mk fs pad : ℚ) :
    (ensureMinColWidth ws t s ds mk fs pad).length = ws.length := by
  simp only [ensureMinColWidth]
  split
  · rfl
  · rw [List.length_set, donateWidths_length]

theorem ensureMinColWidth_of_need_le (ws : List ℚ) (t : ℕ) (s : List String)
    (ds : List ℕ) (mk fs pad : ℚ) (h : neededWidth s fs pad ≤ ws.getD t 0) :
    ensureMinColWidth ws t s ds mk fs pad = ws := by
  simp only [ensureMinColWidth]
  rw [if_pos h]

theorem ensureMinColWidth_getD_target (ws : List ℚ) (t : ℕ) (s : List String)
    (ds : List ℕ) (mk fs pad : ℚ) (ht : t < ws.length) :
    (ensureMinColWidth ws t s ds mk fs pad).getD t 0 =
      max (ws.getD t 0) (neededWidth s fs pad) := by
  simp only [ensureMinColWidth]
  split
  · rename_i h
    exact (max_eq_left h).symm
  · rename_i h
    have hlt : ws.getD t 0 < neededWidth s fs pad := lt_of_not_le h
    have hdf : (0 : ℚ) ≤ neededWidth s fs pad - ws.getD t 0 := by linarith
    have hlen : t < (donateWidths mk ds ws (neededWidth s fs pad - ws.getD t 0)).length := by
      rw [donateWidths_length]; exact ht
    rw [getD_set_self _ t _ hlen]
    have hle : (donateWidths mk ds ws (neededWidth s fs pad - ws.getD t 0)).getD t 0 ≤
        ws.getD t 0 := donateWidths_getD_le mk ds ws _ hdf t
    rw [max_eq_right (le_of_lt (lt_of_le_of_lt hle hlt)), max_eq_right (le_of_lt hlt)]

theorem ensureMinColWidth_getD_frame (ws : List ℚ) (t : ℕ) (s : List String)
    (ds : List ℕ) (mk fs pad : ℚ) (i : ℕ) (hit : i ≠ t) (hids : i ∉ ds) :
    (ensureMinColWidth ws t s ds mk fs pad).getD i 0 = ws.getD i 0 := by
  simp only [ensureMinColWidth]
  split
  · rfl
  · rw [getD_set_ne _ t i _ (fun h => hit h.symm),
      donateWidths_getD_not_mem _ ds ws _ i hids]

/-! ### Claims C3, C8 and C10 (allocator) -/

/-- C3: for every 9-entry width vector and every font size, after the two
protection calls of the portrait allocation (as first run and as re-run
inside the shrink loop), the NAPPI column (index 5) is at least the
measured width of `"0000000000"` plus the 3 mm padding, and the unit-price
column (index 7) is at least the measured width of its widest sample
(`"R0000000.00"`) plus the padding — unconditionally, hence in particular
while any donor is above its 14 mm floor. -/
theorem protected_columns_guarantee (ws : List ℚ) (fs : ℚ) (h : ws.length = 9) :
    neededWidth ["0000000000"] fs 3 ≤ (reEnsureCols fs ws).getD 5 0 ∧
      neededWidth ["R0000000.00", "0000000.00"] fs 3 ≤ (reEnsureCols fs ws).getD 7 0 := by
  have h5 : (5 : ℕ) < ws.length := by omega
  have hA := ensureMinColWidth_getD_target ws 5 ["0000000000"] [2, 3, 1, 4] 14 fs 3 h5
  have hAlen : (ensureMinColWidth ws 5 ["0000000000"] [2, 3, 1, 4] 14 fs 3).length = 9 := by
    rw [ensureMinColWidth_length, h]
  have h7 : (7 : ℕ) <
      (ensureMinColWidth ws 5 ["0000000000"] [2, 3, 1, 4] 14 fs 3).length := by omega
  constructor
  · unfold reEnsureCols
    rw [ensureMinColWidth_getD_frame _ 7 _ [2, 3, 1, 4] 14 fs 3 5 (by omega) (by decide), hA]
    exact le_max_right _ _
  · unfold reEnsureCols
    rw [ensureMinColWidth_getD_target _ 7 _ [2, 3, 1, 4] 14 fs 3 h7]
    exact le_max_right _ _

/-- C3 witness: a concrete 9-column width vector. -/
theorem protected_columns_guarantee_witness :
    ([20, 20, 30, 30, 10, 5, 10, 5, 10] : List ℚ).length = 9 ∧
      neededWidth ["0000000000"] (360 / 127) 3 ≤
        (reEnsureCols (360 / 127) [20, 20, 30, 30, 10, 5, 10, 5, 10]).getD 5 0 :=
  ⟨rfl, (protected_columns_guarantee [20, 20, 30, 30, 10, 5, 10, 5, 10] (360 / 127) rfl).1⟩

/-- C8: `ensure_min_col_width` is a deterministic function of its inputs
(it is modelled as a function), and running it a second time on the widths
it produced returns exactly the same widths. -/
theorem ensure_min_col_width_idempotent (ws : List ℚ) (t : ℕ) (s : List String)
    (ds : List ℕ) (mk fs pad : ℚ) (ht : t < ws.length) :
    ensureMinColWidth (ensureMinColWidth ws t s ds mk fs pad) t s ds mk fs pad =
      ensureMinColWidth ws t s ds mk fs pad := by
  apply ensureMinColWidth_of_need_le
  rw [ensureMinColWidth_getD_target ws t s ds mk fs pad ht]
  exact le_max_right _ _

/-- C8 witness: the portrait NAPPI protection call on a concrete vector. -/
theorem ensure_min_col_width_idempotent_witness :
    (5 : ℕ) < ([20, 20, 30, 30, 10, 5, 10, 5, 10] : List ℚ).length ∧
      ensureMinColWidth
          (ensureMinColWidth [20, 20, 30, 30, 10, 5, 10, 5, 10] 5 ["0000000000"]
            [2, 3, 1, 4] 14 (360 / 127) 3)
          5 ["0000000000"] [2, 3, 1, 4] 14 (360 / 127) 3 =
        ensureMinColWidth [20, 20, 30, 30, 10, 5, 10, 5, 10] 5 ["0000000000"]
          [2, 3, 1, 4] 14 (360 / 127) 3 :=
  ⟨by norm_num, ensure_min_col_width_idempotent [20, 20, 30, 30, 10, 5, 10, 5, 10] 5
      ["0000000000"] [2, 3, 1, 4] 14 (360 / 127) 3 (by norm_num)⟩

/-- C10: frame property of `ensure_min_col_width`: every column other than
the target and the listed donors is returned unchanged; a donor's width
never increases, and a donor already at or below the `min_keep_mm` floor
(14 mm at the call sites) is left exactly unchanged; the target column
becomes the maximum of its old width and the required width (so it only
increases). -/
theorem ensure_min_col_width_frame (ws : List ℚ) (t : ℕ) (s : List String)
    (ds : List ℕ) (mk fs pad : ℚ) (ht : t < ws.length) (htd : t ∉ ds) :
    (∀ i : ℕ, i ≠ t → i ∉ ds →
        (ensureMinColWidth ws t s ds mk fs pad).getD i 0 = ws.getD i 0) ∧
      (∀ d ∈ ds,
        (ensureMinColWidth ws t s ds mk fs pad).getD d 0 ≤ ws.getD d 0 ∧
          (ws.getD d 0 ≤ mk →
            (ensureMinColWidth ws t s ds mk fs pad).getD d 0 = ws.getD d 0)) ∧
      (ensureMinColWidth ws t s ds mk fs pad).getD t 0 =
        max (ws.getD t 0) (neededWidth s fs pad) := by
  refine ⟨fun i hit hids => ensureMinColWidth_getD_frame ws t s ds mk fs pad i hit hids,
    fun d hd => ?_, ensureMinColWidth_getD_target ws t s ds mk fs pad ht⟩
  have hdt : d ≠ t := fun h => htd (h ▸ hd)
  constructor
  · simp only [ensureMinColWidth]
    split
    · exact le_refl _
    · rename_i h
      have hdf : (0 : ℚ) ≤ neededWidth s fs pad - ws.getD t 0 := by
        have := lt_of_not_le h; linarith
      rw [getD_set_ne _ t d _ (fun he => hdt he.symm)]
      exact donateWidths_getD_le mk ds ws _ hdf d
  · intro hfloor
    simp only [ensureMinColWidth]
    split
    · rfl
    · rw [getD_set_ne _ t d _ (fun he => hdt he.symm),
        donateWidths_getD_floor mk ds ws _ d hfloor]

/-- C10 witness: concrete instances of all three parts at the portrait
NAPPI call (untouched column 0, donor column 2, target column 5). -/
theorem ensure_min_col_width_frame_witness :
    (ensureMinColWidth [20, 20, 30, 30, 10, 5, 10, 5, 10] 5 ["0000000000"]
        [2, 3, 1, 4] 14 (360 / 127) 3).getD 0 0 =
      ([20, 20, 30, 30, 10, 5, 10, 5, 10] : List ℚ).getD 0 0 ∧
      (ensureMinColWidth [20, 20, 30, 30, 10, 5, 10, 5, 10] 5 ["0000000000"]
          [2, 3, 1, 4] 14 (360 / 127) 3).getD 2 0 ≤
        ([20, 20, 30, 30, 10, 5, 10, 5, 10] : List ℚ).getD 2 0 ∧
      (ensureMinColWidth [20, 20, 30, 30, 10, 5, 10, 5, 10] 5 ["0000000000"]
          [2, 3, 1, 4] 14 (360 / 127) 3).getD 5 0 =
        max (([20, 20, 30, 30, 10, 5, 10, 5, 10] : List ℚ).getD 5 0)
          (neededWidth ["0000000000"] (360 / 127) 3) := by
  have h := ensure_min_col_width_frame [20, 20, 30, 30, 10, 5, 10, 5, 10] 5 ["0000000000"]
    [2, 3, 1, 4] 14 (360 / 127) 3 (by norm_num) (by decide)
  exact ⟨h.1 0 (by omega) (by decide), (h.2.1 2 (by decide)).1, h.2.2⟩

/-! ### Lemmas about `wrapped_height` -/

theorem splitWsAux_mem_ne_nil : ∀ (s acc w : List Char), w ∈ splitWsAux s acc → w ≠ [] := by
  intro s
  induction s with
  | nil =>
    intro acc w hw
    simp only [splitWsAux] at hw
    split at hw
    · simp at hw
    · rename_i hacc
      simp only [List.mem_singleton] at hw
      subst hw
      simpa using hacc
  | cons c cs ih =>
    intro acc w hw
    simp only [splitWsAux] at hw
    split at hw
    · split at hw
      · exact ih [] w hw
      · rename_i hacc
        rcases List.mem_cons.mp hw with h | h
        · subst h; simpa using hacc
        · exact ih [] w h
    · exact ih (c :: acc) w hw

theorem splitWs_mem_ne_nil (s w : List Char) (hw : w ∈ splitWs s) : w ≠ [] :=
  splitWsAux_mem_ne_nil s [] w hw

theorem splitWsAux_no_ws : ∀ (s acc : List Char),
    (∀ c ∈ s, c.isWhitespace = false) → acc ≠ [] ∨ s ≠ [] →
    splitWsAux s acc = [acc.reverse ++ s] := by
  intro s
  induction s with
  | nil =>
    intro acc _ hne
    have hacc : acc ≠ [] := hne.resolve_right (fun h => h rfl)
    simp [splitWsAux, hacc]
  | cons c cs ih =>
    intro acc hws _
    have hc : c.isWhitespace = false := hws c (List.mem_cons_self c cs)
    simp only [splitWsAux]
    rw [if_neg (by simp [hc])]
    rw [ih (c :: acc) (fun d hd => hws d (List.mem_cons_of_mem c hd)) (Or.inl (by simp))]
    simp

theorem splitWs_singleton (s : List Char) (hne : s ≠ [])
    (hws : ∀ c ∈ s, c.isWhitespace = false) : splitWs s = [s] := by
  unfold splitWs
  rw [splitWsAux_no_ws s [] hws (Or.inr hne)]
  simp

theorem charPack_fst_le (fs maxw : ℚ) : ∀ (cs : List Char) (L : ℕ) (cur : List Char),
    L ≤ (charPack fs maxw (L, cur) cs).1 := by
  intro cs
  induction cs with
  | nil => intro L cur; simp [charPack]
  | cons c rest ih =>
    intro L cur
    simp only [charPack]
    split
    · exact ih L (cur ++ [c])
    · exact le_trans (Nat.le_succ L) (ih (L + 1) [c])

theorem charPack_fst_eq (fs maxw : ℚ) : ∀ (cs : List Char) (L : ℕ) (cur : List Char),
    (charPack fs maxw (L, cur) cs).1 = L →
    cs = [] ∨ getStringWidth fs (cur ++ cs) ≤ maxw := by
  intro cs
  induction cs with
  | nil => intro L cur _; exact Or.inl rfl
  | cons c rest ih =>
    intro L cur h
    simp only [charPack] at h
    split at h
    · rename_i hfit
      rcases ih L (cur ++ [c]) h with h' | h'
      · subst h'
        right
        simpa using hfit
      · right
        rw [show cur ++ c :: rest = (cur ++ [c]) ++ rest by simp]
        exact h'
    · exfalso
      have := charPack_fst_le fs maxw rest (L + 1) [c]
      omega

/-- Coupled-run invariant for character packing: the narrower run (width
`W1`) never has fewer lines, and on equal line counts its current line is
at least as wide. -/
theorem charPack_mono (fs W1 W2 : ℚ) (hfs : 0 ≤ fs) (hW : W1 ≤ W2) :
    ∀ (cs : List Char) (L1 L2 : ℕ) (c1 c2 : List Char),
      (L2 < L1 ∨ (L1 = L2 ∧ getStringWidth fs c2 ≤ getStringWidth fs c1)) →
      ((charPack fs W2 (L2, c2) cs).1 < (charPack fs W1 (L1, c1) cs).1 ∨
        ((charPack fs W1 (L1, c1) cs).1 = (charPack fs W2 (L2, c2) cs).1 ∧
          getStringWidth fs (charPack fs W2 (L2, c2) cs).2 ≤
            getStringWidth fs (charPack fs W1 (L1, c1) cs).2)) := by
  intro cs
  induction cs with
  | nil =>
    intro L1 L2 c1 c2 hinv
    simpa only [charPack] using hinv
  | cons c rest ih =>
    intro L1 L2 c1 c2 hinv
    simp only [charPack]
    by_cases h1 : getStringWidth fs (c1 ++ [c]) ≤ W1 <;>
      by_cases h2 : getStringWidth fs (c2 ++ [c]) ≤ W2
    · rw [if_pos h1, if_pos h2]
      apply ih
      rcases hinv with h | ⟨hL, hw⟩
      · exact Or.inl h
      · refine Or.inr ⟨hL, ?_⟩
        rw [getStringWidth_append, getStringWidth_append]
        linarith
    · rw [if_pos h1, if_neg h2]
      apply ih
      rcases hinv with h | ⟨hL, hw⟩
      · rcases Nat.lt_or_ge (L2 + 1) L1 with h' | h'
        · exact Or.inl h'
        · refine Or.inr ⟨by omega, ?_⟩
          rw [getStringWidth_append]
          have := getStringWidth_nonneg fs c1 hfs
          have := getStringWidth_nonneg fs [c] hfs
          linarith
      · exfalso
        rw [getStringWidth_append] at h1
        rw [getStringWidth_append] at h2
        have h2' := lt_of_not_le h2
        linarith
    · rw [if_neg h1, if_pos h2]
      apply ih
      left
      rcases hinv with h | ⟨hL, _⟩ <;> omega
    · rw [if_neg h1, if_neg h2]
      apply ih
      rcases hinv with h | ⟨hL, _⟩
      · left; omega
      · exact Or.inr ⟨by omega, le_refl _⟩

/-- Coupled-run invariant for the word loop, assuming every word fits the
narrower width (so character packing is never triggered). -/
theorem wordPack_mono (fs W1 W2 : ℚ) (hfs : 0 ≤ fs) (hW : W1 ≤ W2) :
    ∀ (ws : List (List Char)) (L1 L2 : ℕ) (c1 c2 : List Char),
      (∀ w ∈ ws, w ≠ [] ∧ getStringWidth fs w ≤ W1) →
      (c1 = [] ↔ c2 = []) →
      (L2 < L1 ∨ (L1 = L2 ∧ getStringWidth fs c2 ≤ getStringWidth fs c1)) →
      ((wordPack fs W2 (L2, c2) ws).1 < (wordPack fs W1 (L1, c1) ws).1 ∨
        ((wordPack fs W1 (L1, c1) ws).1 = (wordPack fs W2 (L2, c2) ws).1 ∧
          getStringWidth fs (wordPack fs W2 (L2, c2) ws).2 ≤
            getStringWidth fs (wordPack fs W1 (L1, c1) ws).2)) := by
  intro ws
  induction ws with
  | nil =>
    intro L1 L2 c1 c2 _ _ hinv
    simpa only [wordPack] using hinv
  | cons w rest ih =>
    intro L1 L2 c1 c2 hws hemp hinv
    obtain ⟨hwne, hwfit⟩ := hws w (List.mem_cons_self w rest)
    have hrest : ∀ v ∈ rest, v ≠ [] ∧ getStringWidth fs v ≤ W1 :=
      fun v hv => hws v (List.mem_cons_of_mem w hv)
    simp only [wordPack]
    rw [if_neg (not_lt.mpr hwfit), if_neg (not_lt.mpr (le_trans hwfit hW))]
    by_cases hc : c1 = []
    · have hc2 : c2 = [] := hemp.mp hc
      rw [if_pos hc, if_pos hc2, if_pos hwfit, if_pos (le_trans hwfit hW)]
      apply ih _ _ _ _ hrest Iff.rfl
      rcases hinv with h | ⟨hL, _⟩
      · exact Or.inl h
      · exact Or.inr ⟨hL, le_refl _⟩
    · have hc2 : c2 ≠ [] := fun h => hc (hemp.mpr h)
      rw [if_neg hc, if_neg hc2]
      have hne1 : (c1 ++ ' ' :: w) ≠ [] := by simp
      have hne2 : (c2 ++ ' ' :: w) ≠ [] := by simp
      have hB : getStringWidth fs (' ' :: w) =
          getStringWidth fs [' '] + getStringWidth fs w := by
        rw [show (' ' :: w) = [' '] ++ w from rfl, getStringWidth_append]
      by_cases h1 : getStringWidth fs (c1 ++ ' ' :: w) ≤ W1 <;>
        by_cases h2 : getStringWidth fs (c2 ++ ' ' :: w) ≤ W2
      · rw [if_pos h1, if_pos h2]
        apply ih _ _ _ _ hrest ⟨fun h => absurd h hne1, fun h => absurd h hne2⟩
        rcases hinv with h | ⟨hL, hw⟩
        · exact Or.inl h
        · refine Or.inr ⟨hL, ?_⟩
          rw [getStringWidth_append, getStringWidth_append]
          linarith
      · rw [if_pos h1, if_neg h2]
        apply ih _ _ _ _ hrest ⟨fun h => absurd h hne1, fun h => absurd h hwne⟩
        rcases hinv with h | ⟨hL, hw⟩
        · rcases Nat.lt_or_ge (L2 + 1) L1 with h' | h'
          · exact Or.inl h'
          · refine Or.inr ⟨by omega, ?_⟩
            rw [getStringWidth_append, hB]
            have := getStringWidth_nonneg fs c1 hfs
            have := getStringWidth_nonneg fs [' '] hfs
            linarith
        · exfalso
          rw [getStringWidth_append] at h1
          rw [getStringWidth_append] at h2
          have h2' := lt_of_not_le h2
          linarith
      · rw [if_neg h1, if_pos h2]
        apply ih _ _ _ _ hrest ⟨fun h => absurd h hwne, fun h => absurd h hne2⟩
        left
        rcases hinv with h | ⟨hL, _⟩ <;> omega
      · rw [if_neg h1, if_neg h2]
        apply ih _ _ _ _ hrest ⟨fun h => absurd h hwne, fun h => absurd h hwne⟩
        rcases hinv with h | ⟨hL, _⟩
        · left; omega
        · exact Or.inr ⟨by omega, le_refl _⟩

/-! ### Claims C6 and C7 (wrapped height) -/

/-- C6 counterexample: with the text `"i mW i"` at font size
`360000/127 pt` (so that a measured width in mm equals the Helvetica
per-mille sum), the column width `8508/5` (usable width 1700) yields 2
lines, height `9.6`, while the *wider* column `9008/5` (usable width 1800)
yields 3 lines, height `14`: at 1700 the word `"mW"` (width 1777) is
character-packed onto the line `"i"` without a separating space, while at
1800 it fits as a word and forces a break.  So `wrappedHeight` is not
non-decreasing as the column width decreases. -/
theorem wrapped_height_not_monotone :
    (8508 / 5 : ℚ) < 9008 / 5 ∧
      wrappedHeight "i mW i" (8508 / 5) (22 / 5) (360000 / 127) <
        wrappedHeight "i mW i" (9008 / 5) (22 / 5) (360000 / 127) := by
  constructor
  · norm_num
  · have hd : "i mW i".data = ['i', ' ', 'm', 'W', ' ', 'i'] := rfl
    have hsp : splitWs ['i', ' ', 'm', 'W', ' ', 'i'] = [['i'], ['m', 'W'], ['i']] := by
      decide
    have hm1 : max (1 / 10 : ℚ) (8508 / 5 - 8 / 5) = 1700 := by norm_num [max_def]
    have hm2 : max (1 / 10 : ℚ) (9008 / 5 - 8 / 5) = 1800 := by norm_num [max_def]
    have e1 : cwSum ['i'] = 222 := by decide
    have e2 : cwSum ['m', 'W'] = 1777 := by decide
    have e3 : cwSum ['i', 'm'] = 1055 := by decide
    have e4 : cwSum ['i', 'm', 'W'] = 1999 := by decide
    have e5 : cwSum ['W', ' ', 'i'] = 1444 := by decide
    have e6 : cwSum ['i', ' ', 'm', 'W'] = 2277 := by decide
    have e7 : cwSum ['m', 'W', ' ', 'i'] = 2277 := by decide
    have c1 : ¬ ((1700 : ℚ) < getStringWidth (360000 / 127) ['i']) := by
      rw [getStringWidth_special, e1]; norm_num
    have c2 : getStringWidth (360000 / 127) ['i'] ≤ 1700 := by
      rw [getStringWidth_special, e1]; norm_num
    have c3 : (1700 : ℚ) < getStringWidth (360000 / 127) ['m', 'W'] := by
      rw [getStringWidth_special, e2]; norm_num
    have c4 : getStringWidth (360000 / 127) ['i', 'm'] ≤ 1700 := by
      rw [getStringWidth_special, e3]; norm_num
    have c5 : ¬ (getStringWidth (360000 / 127) ['i', 'm', 'W'] ≤ 1700) := by
      rw [getStringWidth_special, e4]; norm_num
    have c6 : getStringWidth (360000 / 127) ['W', ' ', 'i'] ≤ 1700 := by
      rw [getStringWidth_special, e5]; norm_num
    have b1 : ¬ ((1800 : ℚ) < getStringWidth (360000 / 127) ['i']) := by
      rw [getStringWidth_special, e1]; norm_num
    have b2 : getStringWidth (360000 / 127) ['i'] ≤ 1800 := by
      rw [getStringWidth_special, e1]; norm_num
    have b3 : ¬ ((1800 : ℚ) < getStringWidth (360000 / 127) ['m', 'W']) := by
      rw [getStringWidth_special, e2]; norm_num
    have b4 : ¬ (getStringWidth (360000 / 127) ['i', ' ', 'm', 'W'] ≤ 1800) := by
      rw [getStringWidth_special, e6]; norm_num
    have b5 : ¬ (getStringWidth (360000 / 127) ['m', 'W', ' ', 'i'] ≤ 1800) := by
      rw [getStringWidth_special, e7]; norm_num
    have hsmall : wordPack (360000 / 127) 1700 (1, []) [['i'], ['m', 'W'], ['i']] =
        (2, ['W', ' ', 'i']) := by
      rw [wordPack, if_neg c1]
      simp only [reduceIte]
      rw [if_pos c2]
      rw [wordPack, if_pos c3]
      rw [charPack]
      simp only [List.nil_append, List.cons_append]
      rw [if_pos c4, charPack]
      simp only [List.nil_append, List.cons_append]
      rw [if_neg c5, charPack, wordPack, if_neg c1]
      simp only [List.nil_append, List.cons_append]
      rw [if_neg (List.cons_ne_nil 'W' [])]
      rw [if_pos c6, wordPack]
    have hbig : wordPack (360000 / 127) 1800 (1, []) [['i'], ['m', 'W'], ['i']] =
        (3, ['i']) := by
      rw [wordPack, if_neg b1]
      simp only [reduceIte]
      rw [if_pos b2]
      rw [wordPack, if_neg b3]
      simp only [List.nil_append, List.cons_append]
      rw [if_neg (List.cons_ne_nil 'i' [])]
      rw [if_neg b4]
      rw [wordPack, if_neg b1]
      simp only [List.nil_append, List.cons_append]
      rw [if_neg (List.cons_ne_nil 'm' ['W'])]
      rw [if_neg b5, wordPack]
    simp only [wrappedHeight, hd, hsp, hm1, hm2, hsmall, hbig]
    rw [if_neg (List.cons_ne_nil 'i' [' ', 'm', 'W', ' ', 'i']),
      if_neg (List.cons_ne_nil 'i' [' ', 'm', 'W', ' ', 'i'])]
    norm_num

/-- C6 (amended): for nonnegative line height and font size,
`wrappedHeight` is non-decreasing as the column width decreases, provided
every whitespace-delimited word of the text fits within the narrower
usable width (so that the character-packing fallback, which drops
separating spaces and can therefore pack tighter at narrow widths, is not
triggered). -/
theorem wrapped_height_monotone_amended (text : String) (lineHH fs w1 w2 : ℚ)
    (hlh : 0 ≤ lineHH) (hfs : 0 ≤ fs) (hw : w1 ≤ w2)
    (hfit : ∀ w ∈ splitWs text.data,
      getStringWidth fs w ≤ max (1 / 10) (w1 - 8 / 5)) :
    wrappedHeight text w2 lineHH fs ≤ wrappedHeight text w1 lineHH fs := by
  by_cases hs : text.data = []
  · simp [wrappedHeight, hs]
  · have hmw : max (1 / 10 : ℚ) (w1 - 8 / 5) ≤ max (1 / 10) (w2 - 8 / 5) :=
      max_le_max (le_refl _) (by linarith)
    cases hsp : splitWs text.data with
    | nil =>
      have h := charPack_mono fs (max (1 / 10) (w1 - 8 / 5)) (max (1 / 10) (w2 - 8 / 5))
        hfs hmw text.data 1 1 [] [] (Or.inr ⟨rfl, le_refl _⟩)
      have hfst : (charPack fs (max (1 / 10) (w2 - 8 / 5)) (1, []) text.data).1 ≤
          (charPack fs (max (1 / 10) (w1 - 8 / 5)) (1, []) text.data).1 := by
        rcases h with h | ⟨h, _⟩
        · exact le_of_lt h
        · exact le_of_eq h.symm
      simp only [wrappedHeight, if_neg hs, hsp]
      have hc : ((charPack fs (max (1 / 10) (w2 - 8 / 5)) (1, []) text.data).1 : ℚ) ≤
          ((charPack fs (max (1 / 10) (w1 - 8 / 5)) (1, []) text.data).1 : ℚ) :=
        Nat.cast_le.mpr hfst
      have := mul_le_mul_of_nonneg_right hc hlh
      linarith
    | cons w ws =>
      have hargs : ∀ v ∈ w :: ws, v ≠ [] ∧
          getStringWidth fs v ≤ max (1 / 10) (w1 - 8 / 5) := by
        intro v hv
        have hv' : v ∈ splitWs text.data := by rw [hsp]; exact hv
        exact ⟨splitWs_mem_ne_nil _ v hv', hfit v hv'⟩
      have h := wordPack_mono fs (max (1 / 10) (w1 - 8 / 5)) (max (1 / 10) (w2 - 8 / 5))
        hfs hmw (w :: ws) 1 1 [] [] hargs Iff.rfl (Or.inr ⟨rfl, le_refl _⟩)
      have hfst : (wordPack fs (max (1 / 10) (w2 - 8 / 5)) (1, []) (w :: ws)).1 ≤
          (wordPack fs (max (1 / 10) (w1 - 8 / 5)) (1, []) (w :: ws)).1 := by
        rcases h with h | ⟨h, _⟩
        · exact le_of_lt h
        · exact le_of_eq h.symm
      simp only [wrappedHeight, if_neg hs, hsp]
      have hc : ((wordPack fs (max (1 / 10) (w2 - 8 / 5)) (1, []) (w :: ws)).1 : ℚ) ≤
          ((wordPack fs (max (1 / 10) (w1 - 8 / 5)) (1, []) (w :: ws)).1 : ℚ) :=
        Nat.cast_le.mpr hfst
      have := mul_le_mul_of_nonneg_right hc hlh
      linarith

/-- C6 amended witness: `"ab cd"` at usable widths 1200 and 3000. -/
theorem wrapped_height_monotone_amended_witness :
    (0 : ℚ) ≤ 22 / 5 ∧
      wrappedHeight "ab cd" (15008 / 5) (22 / 5) (360000 / 127) ≤
        wrappedHeight "ab cd" (6008 / 5) (22 / 5) (360000 / 127) := by
  refine ⟨by norm_num, wrapped_height_monotone_amended "ab cd" (22 / 5) (360000 / 127)
    (6008 / 5) (15008 / 5) (by norm_num) (by norm_num) (by norm_num) ?_⟩
  have hd : "ab cd".data = ['a', 'b', ' ', 'c', 'd'] := rfl
  have hsp : splitWs ['a', 'b', ' ', 'c', 'd'] = [['a', 'b'], ['c', 'd']] := by decide
  rw [hd, hsp]
  have hm1 : max (1 / 10 : ℚ) (6008 / 5 - 8 / 5) = 1200 := by norm_num [max_def]
  rw [hm1]
  intro w hw
  have e1 : cwSum ['a', 'b'] = 1112 := by decide
  have e2 : cwSum ['c', 'd'] = 1056 := by decide
  rcases List.mem_cons.mp hw with h | h
  · subst h
    rw [getStringWidth_special, e1]
    norm_num
  · rcases List.mem_cons.mp h with h' | h'
    · subst h'
      rw [getStringWidth_special, e2]
      norm_num
    · simp at h'

/-- C7: for a text that is a single whitespace-free word wider than the
usable column width, `wrappedHeight` falls back to character packing: it
returns exactly the character-packed line count times the line height plus
the 0.8 padding, and that line count is at least 2 — never a single
unbounded line. -/
theorem wrapped_height_char_fallback (text : String) (colW lineHH fs : ℚ)
    (hne : text.data ≠ [])
    (hnw : ∀ c ∈ text.data, c.isWhitespace = false)
    (hwide : max (1 / 10) (colW - 8 / 5) < getStringWidth fs text.data) :
    wrappedHeight text colW lineHH fs =
      ((charPack fs (max (1 / 10) (colW - 8 / 5)) (1, []) text.data).1 : ℚ) *
        lineHH + 4 / 5 ∧
      2 ≤ (charPack fs (max (1 / 10) (colW - 8 / 5)) (1, []) text.data).1 := by
  have hsp : splitWs text.data = [text.data] := splitWs_singleton _ hne hnw
  constructor
  · simp only [wrappedHeight, if_neg hne, hsp]
    rw [wordPack, if_pos hwide]
    rw [wordPack]
  · have h1 := charPack_fst_le fs (max (1 / 10) (colW - 8 / 5)) text.data 1 []
    rcases Nat.lt_or_ge (charPack fs (max (1 / 10) (colW - 8 / 5)) (1, []) text.data).1 2
      with h | h
    · exfalso
      have heq : (charPack fs (max (1 / 10) (colW - 8 / 5)) (1, []) text.data).1 = 1 := by
        omega
      rcases charPack_fst_eq fs (max (1 / 10) (colW - 8 / 5)) text.data 1 [] heq with
        h' | h'
      · exact hne h'
      · rw [List.nil_append] at h'
        exact absurd hwide (not_lt.mpr h')
    · exact h

/-- C7 witness: eight zeros at usable width 2000 pack into 3 lines. -/
theorem wrapped_height_char_fallback_witness :
    wrappedHeight "00000000" (10008 / 5) (22 / 5) (360000 / 127) =
      ((charPack (360000 / 127) (max (1 / 10) (10008 / 5 - 8 / 5)) (1, [])
          "00000000".data).1 : ℚ) * (22 / 5) + 4 / 5 ∧
      2 ≤ (charPack (360000 / 127) (max (1 / 10) (10008 / 5 - 8 / 5)) (1, [])
          "00000000".data).1 := by
  apply wrapped_height_char_fallback "00000000" (10008 / 5) (22 / 5) (360000 / 127)
    (by decide) (by decide)
  have hm : max (1 / 10 : ℚ) (10008 / 5 - 8 / 5) = 2000 := by norm_num [max_def]
  have e1 : cwSum "00000000".data = 4448 := by decide
  rw [hm, getStringWidth_special, e1]
  norm_num

/-! ### Lemmas about the shrink loop -/

theorem fuelFont_step (minFont font : ℚ) (h : minFont < font) :
    fuelFont minFont (font - 1 / 5) < fuelFont minFont font := by
  unfold fuelFont
  have hx : (0 : ℚ) < (font - minFont) * 5 := by linarith
  have h1 : (1 : ℤ) ≤ ⌈(font - minFont) * 5⌉ := by
    have := Int.ceil_pos.mpr hx
    omega
  rw [show ((font - 1 / 5 - minFont) * 5 : ℚ) = (font - minFont) * 5 - (1 : ℤ) by
      push_cast; ring,
    Int.ceil_sub_int]
  omega

theorem fuelRow_step (rowH : ℚ) (h : (16 / 5 : ℚ) < rowH) :
    fuelRow (rowH - 2 / 25) < fuelRow rowH := by
  unfold fuelRow
  have hx : (0 : ℚ) < (rowH - 16 / 5) * (25 / 2) := by nlinarith
  have h1 : (1 : ℤ) ≤ ⌈(rowH - 16 / 5) * (25 / 2)⌉ := by
    have := Int.ceil_pos.mpr hx
    omega
  rw [show ((rowH - 2 / 25 - 16 / 5) * (25 / 2) : ℚ) =
        (rowH - 16 / 5) * (25 / 2) - (1 : ℤ) by push_cast; ring,
    Int.ceil_sub_int]
  omega

theorem fuelMargin_shrink (m : ℚ) (h : 6 < m) :
    fuelMargin (max (m - 1) 6) < fuelMargin m := by
  unfold fuelMargin
  have h1 : (1 : ℤ) ≤ ⌈m - 6⌉ := by
    have : (0 : ℚ) < m - 6 := by linarith
    have := Int.ceil_pos.mpr this
    omega
  rcases le_or_lt (m - 1) 6 with hc | hc
  · rw [max_eq_right hc, show ((6 : ℚ) - 6) = 0 by norm_num, Int.ceil_zero]
    omega
  · rw [max_eq_left (le_of_lt hc),
      show (m - 1 - 6 : ℚ) = (m - 6) - (1 : ℤ) by push_cast; ring, Int.ceil_sub_int]
    omega

theorem fuelMargin_le (m : ℚ) : fuelMargin (max (m - 1) 6) ≤ fuelMargin m := by
  rcases le_or_lt m 6 with hm | hm
  · have hmax : max (m - 1) 6 = 6 := max_eq_right (by linarith)
    rw [hmax]
    unfold fuelMargin
    rw [show ((6 : ℚ) - 6) = 0 by norm_num, Int.ceil_zero]
    omega
  · exact le_of_lt (fuelMargin_shrink m hm)

theorem fuelFont_ite_le (minFont font : ℚ) :
    fuelFont minFont (if minFont < font then font - 1 / 5 else font) ≤
      fuelFont minFont font := by
  split
  · rename_i h
    exact le_of_lt (fuelFont_step minFont font h)
  · exact le_refl _

theorem fuelRow_ite_le (rowH : ℚ) :
    fuelRow (if (16 / 5 : ℚ) < rowH then rowH - 2 / 25 else rowH) ≤ fuelRow rowH := by
  split
  · rename_i h
    exact le_of_lt (fuelRow_step rowH h)
  · exact le_refl _

theorem shrinkStepCore_fuel (minFont : ℚ) (s s' : FitState)
    (h : shrinkStepCore minFont s = some s') :
    fitFuel minFont s' < fitFuel minFont s := by
  simp only [shrinkStepCore] at h
  by_cases hA : minFont < s.font ∨ (16 / 5 : ℚ) < s.rowH
  · rw [if_pos hA] at h
    injection h with h'
    subst h'
    simp only [fitFuel]
    have hfle := fuelFont_ite_le minFont s.font
    have hrle := fuelRow_ite_le s.rowH
    rcases hA with hf | hr
    · have hstrict : fuelFont minFont
          (if minFont < s.font then s.font - 1 / 5 else s.font) <
            fuelFont minFont s.font := by
        rw [if_pos hf]
        exact fuelFont_step minFont s.font hf
      omega
    · have hstrict : fuelRow
          (if (16 / 5 : ℚ) < s.rowH then s.rowH - 2 / 25 else s.rowH) <
            fuelRow s.rowH := by
        rw [if_pos hr]
        exact fuelRow_step s.rowH hr
      omega
  · rw [if_neg hA] at h
    by_cases hC : 6 < s.lM ∨ 6 < s.rM
    · rw [if_pos hC] at h
      injection h with h'
      subst h'
      simp only [fitFuel]
      have hl := fuelMargin_le s.lM
      have hr := fuelMargin_le s.rM
      rcases hC with hm | hm
      · have := fuelMargin_shrink s.lM hm
        omega
      · have := fuelMargin_shrink s.rM hm
        omega
    · rw [if_neg hC] at h
      cases h

theorem shrinkLoop_isSome (headerH minFont freeH : ℚ) (rows : List (List String)) :
    ∀ (n : ℕ) (s : FitState), fitFuel minFont s ≤ n →
      (shrinkLoop headerH minFont freeH rows (n + 1) s).isSome = true := by
  intro n
  induction n using Nat.strong_induction_on with
  | _ n ih =>
    intro s hfuel
    rw [shrinkLoop]
    split
    · rfl
    · cases hstep : shrinkStepCore minFont s with
      | none => rfl
      | some s' =>
        have hlt := shrinkStepCore_fuel minFont s s' hstep
        cases n with
        | zero => omega
        | succ m => exact ih m (by omega) s' (by omega)

/-! ### Claims C2 and C4 (shrink loop) -/

/-- C2 counterexample: in the portrait defaults (font 8.2, row height 4.4,
floors 6.2 and 3.2) with an over-tall table, a single loop body decrements
the font *and* the row height together: the two guards are independent
`if`s, not an `elif` chain, so "only the font size is decremented in that
iteration" is false. -/
theorem shrink_step_both_decrement :
    (5 : ℚ) < tableTotalHeight (28 / 5) (41 / 5) (22 / 5)
        [25, 25, 25, 25, 25, 25, 25, 25, 25] [] ∧
      (31 / 5 : ℚ) < 41 / 5 ∧
      (shrinkStepCore (31 / 5)
            { font := 41 / 5, rowH := 22 / 5, lM := 10, rM := 10,
              colW := [25, 25, 25, 25, 25, 25, 25, 25, 25] }).map FitState.font =
        some (8 : ℚ) ∧
      (shrinkStepCore (31 / 5)
            { font := 41 / 5, rowH := 22 / 5, lM := 10, rM := 10,
              colW := [25, 25, 25, 25, 25, 25, 25, 25, 25] }).map FitState.rowH =
        some (108 / 25 : ℚ) ∧
      (108 / 25 : ℚ) ≠ 22 / 5 := by
  refine ⟨?_, by norm_num, ?_, ?_, by norm_num⟩
  · norm_num [tableTotalHeight]
  · norm_num [shrinkStepCore]
  · norm_num [shrinkStepCore]

/-- C2 (amended): in every non-fitting iteration the loop body decrements
the font size if it is above its floor *and* decrements the row height if
it is above its floor — both may change in the same iteration — while the
margins are left unchanged; the margins are pulled in (1 mm per side)
only in an iteration in which both the font and the row height are
already at their floors. -/
theorem shrink_step_priority (minFont : ℚ) (s : FitState) :
    ((minFont < s.font ∨ (16 / 5 : ℚ) < s.rowH) →
      shrinkStepCore minFont s = some
        { font := if minFont < s.font then s.font - 1 / 5 else s.font,
          rowH := if (16 / 5 : ℚ) < s.rowH then s.rowH - 2 / 25 else s.rowH,
          lM := s.lM, rM := s.rM,
          colW := reEnsureCols
            (if minFont < s.font then s.font - 1 / 5 else s.font) s.colW }) ∧
      (∀ s', shrinkStepCore minFont s = some s' →
        (s'.lM ≠ s.lM ∨ s'.rM ≠ s.rM) → s.font ≤ minFont ∧ s.rowH ≤ 16 / 5) := by
  constructor
  · intro h
    simp only [shrinkStepCore]
    rw [if_pos h]
  · intro s' hstep hm
    by_cases h : minFont < s.font ∨ (16 / 5 : ℚ) < s.rowH
    · exfalso
      simp only [shrinkStepCore] at hstep
      rw [if_pos h] at hstep
      injection hstep with h'
      subst h'
      simp only at hm
      rcases hm with hm | hm <;> exact hm rfl
    · push_neg at h
      exact h

/-- C2 amended witness: the portrait defaults with min font 6.2. -/
theorem shrink_step_priority_witness :
    (31 / 5 : ℚ) < 41 / 5 ∧
      shrinkStepCore (31 / 5)
          { font := 41 / 5, rowH := 22 / 5, lM := 10, rM := 10,
            colW := [25, 25, 25, 25, 25, 25, 25, 25, 25] } =
        some { font := 8, rowH := 108 / 25, lM := 10, rM := 10,
               colW := reEnsureCols 8 [25, 25, 25, 25, 25, 25, 25, 25, 25] } := by
  refine ⟨by norm_num, ?_⟩
  have h := (shrink_step_priority (31 / 5)
    { font := 41 / 5, rowH := 22 / 5, lM := 10, rM := 10,
      colW := [25, 25, 25, 25, 25, 25, 25, 25, 25] }).1 (Or.inl (by norm_num))
  rw [h]
  norm_num [FitState.mk.injEq]

/-- C4 (amended): the shrink loop always terminates; counting one fuel
unit per evaluation of the `while` condition, it completes within
`F + R + M + 1` steps, where `F = ⌈(font₀ − minFont)·5⌉₊` is the number of
available 0.2 pt font decrements, `R = ⌈(rowHeight₀ − 3.2)·12.5⌉₊` the
number of 0.08 row-height decrements and `M` the number of available 1 mm
margin decrements on the two sides — for every row list, every free
height, and every starting configuration. -/
theorem shrink_loop_terminates (headerH minFont freeH : ℚ)
    (rows : List (List String)) (s : FitState) :
    (shrinkLoop headerH minFont freeH rows
        (fuelFont minFont s.font + fuelRow s.rowH +
          fuelMargin s.lM + fuelMargin s.rM + 1) s).isSome = true :=
  shrinkLoop_isSome headerH minFont freeH rows _ s (le_refl _)

/-- C4 counterexample: the claim's bound is
`(baseFont − minFont)/step + (baseRow − minRow)/step + (margin − floor)`.
With the user-settable minimum portrait font at its maximum 10 (above the
8.2 base, so the first term is `−9`) this evaluates to
`−9 + 15 + 4 = 10`, yet with an over-tall table (free height 5 mm, no
rows) the loop is still running after 10 iterations: the row height alone
needs 15 decrements before the margins even start.  `none` means the loop
did not finish within the claimed 10 iterations. -/
theorem shrink_loop_bound_counterexample :
    shrinkLoop (28 / 5) 10 5 [] 10
        { font := 41 / 5, rowH := 22 / 5, lM := 10, rM := 10,
          colW := [25, 25, 25, 25, 25, 25, 25, 25, 25] } = none := by
  have cw1 : cwSum "0000000000".data = 5560 := by decide
  have cw2 : cwSum "R0000000.00".data = 6004 := by decide
  have cw3 : cwSum "0000000.00".data = 5282 := by decide
  have h5 : neededWidth ["0000000000"] (41 / 5) 3 ≤
      ([25, 25, 25, 25, 25, 25, 25, 25, 25] : List ℚ).getD 5 0 := by
    simp only [neededWidth, listMax, List.map, getStringWidth, cw1, List.getD]
    norm_num
  have h7 : neededWidth ["R0000000.00", "0000000.00"] (41 / 5) 3 ≤
      ([25, 25, 25, 25, 25, 25, 25, 25, 25] : List ℚ).getD 7 0 := by
    simp only [neededWidth, listMax, List.map, getStringWidth, cw2, cw3, List.getD]
    rw [max_eq_left (by norm_num)]
    norm_num
  have hre : reEnsureCols (41 / 5) [25, 25, 25, 25, 25, 25, 25, 25, 25] =
      [25, 25, 25, 25, 25, 25, 25, 25, 25] := by
    unfold reEnsureCols
    rw [ensureMinColWidth_of_need_le _ _ _ _ _ _ _ h5,
      ensureMinColWidth_of_need_le _ _ _ _ _ _ _ h7]
  have hnotfit : ∀ r : ℚ, ¬ (tableTotalHeight (28 / 5) (41 / 5) r
      [25, 25, 25, 25, 25, 25, 25, 25, 25] [] ≤ 5) := by
    intro r
    norm_num [tableTotalHeight]
  have hstep : ∀ r : ℚ, (16 / 5 : ℚ) < r →
      shrinkStepCore 10
          { font := 41 / 5, rowH := r, lM := 10, rM := 10,
            colW := [25, 25, 25, 25, 25, 25, 25, 25, 25] } =
        some
          { font := 41 / 5, rowH := r - 2 / 25, lM := 10, rM := 10,
            colW := [25, 25, 25, 25, 25, 25, 25, 25, 25] } := by
    intro r hr
    simp only [shrinkStepCore]
    rw [if_pos (Or.inr hr), if_neg (by norm_num : ¬ (10 : ℚ) < 41 / 5),
      if_pos hr, hre]
  have hone : ∀ (n : ℕ) (r r' : ℚ), (16 / 5 : ℚ) < r → r - 2 / 25 = r' →
      shrinkLoop (28 / 5) 10 5 [] (n + 1)
          { font := 41 / 5, rowH := r, lM := 10, rM := 10,
            colW := [25, 25, 25, 25, 25, 25, 25, 25, 25] } =
        shrinkLoop (28 / 5) 10 5 [] n
          { font := 41 / 5, rowH := r', lM := 10, rM := 10,
            colW := [25, 25, 25, 25, 25, 25, 25, 25, 25] } := by
    intro n r r' hr hr'
    rw [shrinkLoop, if_neg (hnotfit r), hstep r hr, hr']
  rw [hone 9 (22 / 5) (108 / 25) (by norm_num) (by norm_num),
    hone 8 (108 / 25) (106 / 25) (by norm_num) (by norm_num),
    hone 7 (106 / 25) (104 / 25) (by norm_num) (by norm_num),
    hone 6 (104 / 25) (102 / 25) (by norm_num) (by norm_num),
    hone 5 (102 / 25) (4 : ℚ) (by norm_num) (by norm_num),
    hone 4 (4 : ℚ) (98 / 25) (by norm_num) (by norm_num),
    hone 3 (98 / 25) (96 / 25) (by norm_num) (by norm_num),
    hone 2 (96 / 25) (94 / 25) (by norm_num) (by norm_num),
    hone 1 (94 / 25) (92 / 25) (by norm_num) (by norm_num),
    hone 0 (92 / 25) (18 / 5) (by norm_num) (by norm_num)]
  rfl

end NuForm
